import Mathlib

set_option maxHeartbeats 1000000

/-!
Verification development for the shell-command fast-path optimizer of kati
(src/shellutil.go). The definitions below are a shallow embedding of that
file: pure Go functions become Lean functions on lists of bytes
(natural numbers) or characters, the package globals consulted at run time
(the external filesystem index, the reference timestamp) become explicit
parameters, and each handler's Eval method becomes a function from an
evaluation context to the pair (bytes written, returned error).
External collaborators that live outside src/ (the buffer layer's word
scanner and trimmer, the ssv writer, the filesystem index, Go's strings
and time standard-library packages) are modelled from the spec at their
interface boundary, as marked in the individual doc comments.
-/

namespace KatiShellutil

/-- Bytes of a Go byte buffer, each byte a natural number (below 256 in practice). -/
abbrev Bytes := List Nat

/-- Modelled from the spec: the whitespace bytes on which the buffer layer's
word scanner (buf.go, outside src/) splits tokens: space, tab, newline,
vertical tab, form feed, carriage return. -/
def isSpaceByte (c : Nat) : Bool :=
  c == 32 || c == 9 || c == 10 || c == 11 || c == 12 || c == 13

/-- Modelled from the spec: trimSpaceBytes of the buffer layer (outside src/),
trimming incidental leading and trailing whitespace from a resolved buffer. -/
def trimSpaceBytes (b : Bytes) : Bytes :=
  ((b.dropWhile isSpaceByte).reverse.dropWhile isSpaceByte).reverse

/-- One step of the word scanner, consuming one byte in front of the pair
(word currently being built, words already finished to the right). -/
def wordScanStep (c : Nat) (acc : Bytes × List Bytes) : Bytes × List Bytes :=
  if isSpaceByte c then
    if acc.1 = [] then acc else ([], acc.1 :: acc.2)
  else (c :: acc.1, acc.2)

/-- Modelled from the spec: the word-scanning utility (newWordScanner of the
buffer layer, outside src/) that splits a resolved buffer into its
whitespace-delimited tokens, in order and with no empty tokens. -/
def wordScan (b : Bytes) : List Bytes :=
  let r := b.foldr wordScanStep ([], [])
  if r.1 = [] then r.2 else r.1 :: r.2

/-- strings.Contains(s, "..") on the bytes of s: two consecutive dot bytes
(46) occur somewhere in the buffer. -/
def hasDotDot : Bytes → Bool
  | [] => false
  | [_] => false
  | a :: b :: rest => (a == 46 && b == 46) || hasDotDot (b :: rest)

/-- Modelled from the spec: an ssvWriter (buf.go, outside src/) joins all the
words written through it with single space bytes (32). -/
def ssvJoin : List Bytes → Bytes
  | [] => []
  | [w] => w
  | w :: ws => w ++ 32 :: ssvJoin ws

/-- Concatenation of per-directory word lists written through one shared
ssvWriter. -/
def concatWords {α : Type} : List (List α) → List α
  | [] => []
  | x :: xs => x ++ concatWords xs

/-- Values of the expression layer that the structural matcher captures: a
literal text fragment or an unresolved variable reference, opaque at match
time. Go compares captured values with interface equality; DecidableEq
plays that role here. -/
inductive Value where
  | lit (s : List Char)
  | varref (n : List Char)
deriving DecidableEq

/-- The original funcShell node, opaque in this development: the claims only
ever compare results of re-running it, never look inside it. -/
structure FuncShell where
  tag : Nat
deriving DecidableEq

/-- Errors propagated from value resolution. -/
abbrev EvalError := String

/-- Result of one Eval call: the bytes written to the writer together with
the returned error value. -/
structure EvalOut where
  out : Bytes
  err : Option EvalError
deriving DecidableEq

/-- Modelled from the spec: the evaluation context. resolve is ev.args on a
single value (resolution failure must propagate as a hard error);
origShell gives the output and error of evaluating the original
unmodified funcShell command node in this same context. -/
structure Evaluator where
  resolve : Value → Except EvalError Bytes
  origShell : FuncShell → EvalOut

/-- Resolution of a list of values, in order, as one ev.args call performs
it: the first failure propagates and no later value is resolved. -/
def resolveList (ev : Evaluator) : List Value → Except EvalError (List Bytes)
  | [] => Except.ok []
  | v :: vs =>
    match ev.resolve v with
    | .error e => .error e
    | .ok b =>
      match resolveList ev vs with
      | .error e => .error e
      | .ok bs => .ok (b :: bs)

/-- Modelled from the spec: the external read-only filesystem index
(androidFindCache, find.go, outside src/), specified only at its interface
boundary. Queries that write space-separated words through an ssvWriter are
modelled as returning the list of words written; findExtFilesUnder returns
none when the index cannot answer that sub-query. -/
structure FindCache where
  ready : Bool
  leavesReady : Bool
  findInDir : Bytes → List Bytes
  findExtFilesUnder : Bytes → Bytes → String → Option (List Bytes)
  findJavaResourceFileGroup : Bytes → List Bytes
  findleaves : Bytes → Bytes → List Bytes → Int → List Bytes

/-- Per-byte body of rot13 (src/shellutil.go): tr a-zA-Z n-za-mN-ZA-M.
The source adds 13 and wraps by subtracting 26 past the end of either
alphabet; 97, 122, 65, 90 are the byte values of the alphabet bounds. -/
def rot13Byte (b : Nat) : Nat :=
  if 97 ≤ b ∧ b ≤ 122 then
    if b + 13 > 122 then b + 13 - 26 else b + 13
  else if 65 ≤ b ∧ b ≤ 90 then
    if b + 13 > 90 then b + 13 - 26 else b + 13
  else b

/-- rot13 of src/shellutil.go: the source rewrites every byte of the buffer
in place with the body above; modelled as a map. -/
def rot13 (buf : Bytes) : Bytes := buf.map rot13Byte

/-- The byte ranges rot13 touches: ASCII lowercase or uppercase letters. -/
def isAsciiLetterByte (b : Nat) : Bool :=
  (97 ≤ b && b ≤ 122) || (65 ≤ b && b ≤ 90)

/-- funcShellAndroidRot13 of src/shellutil.go. -/
structure funcShellAndroidRot13 where
  funcShell : FuncShell
  v : Value

/-- Eval of funcShellAndroidRot13: resolve the captured variable, rot13 the
resolved bytes in place and write them; resolution failure propagates. -/
def funcShellAndroidRot13.Eval (f : funcShellAndroidRot13) (ev : Evaluator) : EvalOut :=
  match ev.resolve f.v with
  | .error e => ⟨[], some e⟩
  | .ok b => ⟨rot13 b, none⟩

/-- funcShellAndroidFindFileInDir of src/shellutil.go. -/
structure funcShellAndroidFindFileInDir where
  funcShell : FuncShell
  dir : Value

/-- Eval of funcShellAndroidFindFileInDir: resolve and trim the directory;
fall back to the original command if it contains ".." or if the index is
not ready; otherwise write the index's findInDir answer space-separated. -/
def funcShellAndroidFindFileInDir.Eval (f : funcShellAndroidFindFileInDir)
    (cache : FindCache) (ev : Evaluator) : EvalOut :=
  match ev.resolve f.dir with
  | .error e => ⟨[], some e⟩
  | .ok b =>
    let dir := trimSpaceBytes b
    if hasDotDot dir then ev.origShell f.funcShell
    else if !cache.ready then ev.origShell f.funcShell
    else ⟨ssvJoin (cache.findInDir dir), none⟩

/-- funcShellAndroidFindExtFilesUnder of src/shellutil.go. -/
structure funcShellAndroidFindExtFilesUnder where
  funcShell : FuncShell
  chdir : Value
  roots : Value
  ext : String

/-- The per-root query loop of funcShellAndroidFindExtFilesUnder.Eval: the
source queries each root in order into one buffered ssvWriter and aborts on
the first root the index cannot answer; none models that abort, some the
accumulated words of all roots. -/
def queryRoots (cache : FindCache) (chdir : Bytes) (ext : String) :
    List Bytes → Option (List Bytes)
  | [] => some []
  | r :: rs =>
    match cache.findExtFilesUnder chdir r ext with
    | none => none
    | some ws =>
      match queryRoots cache chdir ext rs with
      | none => none
      | some rest => some (ws ++ rest)

/-- Eval of funcShellAndroidFindExtFilesUnder: resolve chdir and the root
list (in that order, failure propagating), trim chdir, word-scan the roots
recording whether any token contains ".."; fall back to the original
command if chdir or a root contains ".." or the index is not ready; query
each root in order, falling back and discarding the buffered words if any
sub-query fails; only when every root succeeds write the buffered words. -/
def funcShellAndroidFindExtFilesUnder.Eval (f : funcShellAndroidFindExtFilesUnder)
    (cache : FindCache) (ev : Evaluator) : EvalOut :=
  match ev.resolve f.chdir with
  | .error e => ⟨[], some e⟩
  | .ok cb =>
    match ev.resolve f.roots with
    | .error e => ⟨[], some e⟩
    | .ok rb =>
      let chdir := trimSpaceBytes cb
      let roots := wordScan rb
      if hasDotDot chdir || roots.any hasDotDot then ev.origShell f.funcShell
      else if !cache.ready then ev.origShell f.funcShell
      else
        match queryRoots cache chdir f.ext roots with
        | none => ev.origShell f.funcShell
        | some ws => ⟨ssvJoin ws, none⟩

/-- funcShellAndroidFindJavaResourceFileGroup of src/shellutil.go. -/
structure funcShellAndroidFindJavaResourceFileGroup where
  funcShell : FuncShell
  dir : Value

/-- Eval of funcShellAndroidFindJavaResourceFileGroup: same shape as
funcShellAndroidFindFileInDir with the findJavaResourceFileGroup query. -/
def funcShellAndroidFindJavaResourceFileGroup.Eval
    (f : funcShellAndroidFindJavaResourceFileGroup)
    (cache : FindCache) (ev : Evaluator) : EvalOut :=
  match ev.resolve f.dir with
  | .error e => ⟨[], some e⟩
  | .ok b =>
    let dir := trimSpaceBytes b
    if hasDotDot dir then ev.origShell f.funcShell
    else if !cache.ready then ev.origShell f.funcShell
    else ⟨ssvJoin (cache.findJavaResourceFileGroup dir), none⟩

/-- funcShellAndroidFindleaves of src/shellutil.go. -/
structure funcShellAndroidFindleaves where
  funcShell : FuncShell
  prunes : List Value
  dirlist : Value
  name : Value
  mindepth : Int

/-- Eval of funcShellAndroidFindleaves: fall back at once if the index's
leaf service is not ready; otherwise resolve name, dirlist and all prunes
(in that order, in one ev.args call, failure propagating), word-scan the
directory list and fall back if any directory token contains ".."
(the leaf name and the prune values are never checked); otherwise trim the
prunes and write the findleaves answers of all directories through one
shared ssvWriter. -/
def funcShellAndroidFindleaves.Eval (f : funcShellAndroidFindleaves)
    (cache : FindCache) (ev : Evaluator) : EvalOut :=
  if !cache.leavesReady then ev.origShell f.funcShell
  else
    match ev.resolve f.name with
    | .error e => ⟨[], some e⟩
    | .ok nb =>
      match ev.resolve f.dirlist with
      | .error e => ⟨[], some e⟩
      | .ok db =>
        match resolveList ev f.prunes with
        | .error e => ⟨[], some e⟩
        | .ok pbs =>
          let nm := trimSpaceBytes nb
          let dirs := wordScan db
          if dirs.any hasDotDot then ev.origShell f.funcShell
          else
            let prunes := pbs.map trimSpaceBytes
            ⟨ssvJoin (concatWords
              (dirs.map (fun d => cache.findleaves d nm prunes f.mindepth))), none⟩

/-- Modelled from the spec: Go's time.Time (standard library), reduced to
what src/shellutil.go consults.  An unconfigured reference timestamp is the
zero time, which IsZero recognizes. -/
structure GoTime where
  sec : Int
  nsec : Int
deriving DecidableEq

/-- IsZero of the modelled time.Time: the zero time. -/
def GoTime.IsZero (t : GoTime) : Bool := t.sec == 0 && t.nsec == 0

/-- shellDateFormatRef of src/shellutil.go.  Every key of the Go map is a
two-byte directive whose first byte is the percent sign, so a key is kept
here as its second character, paired with the replacement text.  The Go map
is iterated in unspecified order; the fold in translateFormat fixes the
declaration order of the map literal (foldRef_eq_dateScan below shows the
result is the same for every order of a list satisfying goodKvs, so the
choice is immaterial). -/
def shellDateFormatRef : List (Char × List Char) :=
  [('Y', ['2', '0', '0', '6']),
   ('m', ['0', '1']),
   ('d', ['0', '2']),
   ('H', ['1', '5']),
   ('M', ['0', '4']),
   ('S', ['0', '5']),
   ('b', ['J', 'a', 'n']),
   ('k', ['1', '5'])]

/-- Modelled from the spec: strings.Replace(s, old, new, -1) of the Go
standard library, replacing the non-overlapping occurrences of old in s by
new, left to right, continuing after each replacement. -/
def replaceAll (old new : List Char) : List Char → List Char
  | [] => []
  | c :: rest =>
    if h : old ≠ [] ∧ old <+: (c :: rest) then
      new ++ replaceAll old new ((c :: rest).drop old.length)
    else
      c :: replaceAll old new rest
termination_by s => s.length
decreasing_by
  · simp only [List.length_drop, List.length_cons]
    have h1 : 0 < old.length := List.length_pos.mpr h.1
    omega
  · simp only [List.length_cons]
    omega

/-- The replacement loop of compactShellDate over a key-replacement list:
tfstr = strings.Replace(tfstr, k, v, -1) for each entry in order, the key
being the percent sign followed by the entry's character. -/
def foldRef (kvs : List (Char × List Char)) (s : List Char) : List Char :=
  kvs.foldl (fun acc kv => replaceAll ['%', kv.1] kv.2 acc) s

/-- The format pre-translation performed once inside compactShellDate
(src/shellutil.go): every entry of shellDateFormatRef is substituted into
the captured literal format string. -/
def translateFormat (s : List Char) : List Char :=
  foldRef shellDateFormatRef s

/-- First replacement associated with a directive character in a
key-replacement list. -/
def lookupKey : List (Char × List Char) → Char → Option (List Char)
  | [], _ => none
  | kv :: kvs, c => if c = kv.1 then some kv.2 else lookupKey kvs c

/-- Specification-side scanner, following the claim's words: walk the format
string left to right; when the next two characters are a percent sign
followed by a recognized directive character, emit that directive's
replacement and skip both characters; otherwise copy one character
unchanged. -/
def dateScan (kvs : List (Char × List Char)) : List Char → List Char
  | [] => []
  | [c] => [c]
  | c1 :: c2 :: rest =>
    if c1 = '%' then
      match lookupKey kvs c2 with
      | some r => r ++ dateScan kvs rest
      | none => c1 :: dateScan kvs (c2 :: rest)
    else c1 :: dateScan kvs (c2 :: rest)

/-- dateScan at the concrete directive table of the source. -/
def dateScanSpec (s : List Char) : List Char :=
  dateScan shellDateFormatRef s

/-- Well-formedness of a directive table, satisfied by shellDateFormatRef:
no directive character is the percent sign itself, every replacement is
nonempty, and no replacement character is the percent sign or a directive
character.  These are exactly the facts that make the order of the Go map
iteration immaterial. -/
def goodKvs (kvs : List (Char × List Char)) : Prop :=
  ∀ kv ∈ kvs, kv.1 ≠ '%' ∧ kv.2 ≠ [] ∧
    ∀ c ∈ kv.2, c ≠ '%' ∧ lookupKey kvs c = none

instance (kvs : List (Char × List Char)) : Decidable (goodKvs kvs) := by
  unfold goodKvs
  infer_instance

/-- The evaluation nodes a compactor of src/shellutil.go can return, for the
compactors the claims are about: the original funcShell unchanged, the
specialized find-file-in-dir node, or the specialized date node. -/
inductive ShellNode where
  | shell (sh : FuncShell)
  | androidFindFileInDir (sh : FuncShell) (dir : Value)
  | shellDate (sh : FuncShell) (format : List Char)
deriving DecidableEq

/-- The compact function of the android:find-subdir-assets registry entry
(src/shellutil.go): the matcher passes exactly two captures v0 = v[0] and
v1 = v[1]; if they differ the original node is returned, otherwise the
specialized node is built around the shared directory value.  (The
idempotent androidFindCache.init call made on the success path touches no
value this development observes.) -/
def compactFindSubdirAssets (sh : FuncShell) (v0 v1 : Value) : ShellNode :=
  if v0 ≠ v1 then ShellNode.shell sh
  else ShellNode.androidFindFileInDir sh v0

/-- compactShellDate of src/shellutil.go, with the package global
ShellDateTimestamp passed explicitly: return the original node if the
reference timestamp is unconfigured or the capture v0 = v[0] is not a
literal; otherwise build the specialized date node carrying the
pre-translated format. -/
def compactShellDate (ts : GoTime) (sh : FuncShell) (v0 : Value) : ShellNode :=
  if ts.IsZero then ShellNode.shell sh
  else
    match v0 with
    | Value.lit tf => ShellNode.shellDate sh (translateFormat tf)
    | _ => ShellNode.shell sh

/-- funcShellDate of src/shellutil.go. -/
structure funcShellDate where
  funcShell : FuncShell
  format : List Char

/-- Eval of funcShellDate: print the fixed reference timestamp formatted
with the pre-translated format and return no error.  goFormat models
time.Time.Format of the Go standard library (external, kept abstract); ts
is the package global ShellDateTimestamp at evaluation time; the evaluation
context ev is ignored by the source just as it is here. -/
def funcShellDate.Eval (goFormat : GoTime → List Char → List Char)
    (ts : GoTime) (f : funcShellDate) (_ev : Evaluator) : EvalOut :=
  ⟨(goFormat ts f.format).map Char.toNat, none⟩

/-- ASCII-letter bytes as a proposition, the ranges rot13 touches. -/
def isAsciiLetter (b : Nat) : Prop := (97 ≤ b ∧ b ≤ 122) ∨ (65 ≤ b ∧ b ≤ 90)

instance (b : Nat) : Decidable (isAsciiLetter b) := by
  unfold isAsciiLetter
  infer_instance

/-- Concrete fixture: an original command node. -/
def fsh0 : FuncShell := ⟨0⟩

/-- Concrete fixture: output of re-running the original command. -/
def outOrig : EvalOut := ⟨[111, 114, 105, 103], none⟩

/-- Concrete fixture: a context resolving every value to "..". -/
def evDotDot : Evaluator := ⟨fun _ => Except.ok [46, 46], fun _ => outOrig⟩

/-- Concrete fixture: a context resolving every value to "a". -/
def evSafe : Evaluator := ⟨fun _ => Except.ok [97], fun _ => outOrig⟩

/-- Concrete fixture: a context resolving the Hello variable. -/
def evHello : Evaluator := ⟨fun _ => Except.ok [72, 101, 108, 108, 111], fun _ => outOrig⟩

/-- Concrete fixture: a context whose chdir variable (named c) resolves to
"d" and whose other variables resolve to the two-root list "a b". -/
def evRoots : Evaluator :=
  ⟨fun v =>
    match v with
    | Value.varref n => if n = ['c'] then Except.ok [100] else Except.ok [97, 32, 98]
    | Value.lit s => Except.ok (s.map Char.toNat),
   fun _ => outOrig⟩

/-- Concrete fixture: a context whose directory-list variable (named d)
resolves to "a b" and whose other variables resolve to "..". -/
def evLeaf : Evaluator :=
  ⟨fun v =>
    match v with
    | Value.varref n => if n = ['d'] then Except.ok [97, 32, 98] else Except.ok [46, 46]
    | Value.lit s => Except.ok (s.map Char.toNat),
   fun _ => outOrig⟩

/-- Concrete fixture: a fully ready index answering every query. -/
def cacheReady : FindCache :=
  ⟨true, true,
   fun d => [d ++ [47, 102]],
   fun _ r _ => some [r],
   fun d => [d],
   fun d _ _ _ => [d ++ [47, 76]]⟩

/-- Concrete fixture: an index that is not ready in either service. -/
def cacheNotReady : FindCache :=
  ⟨false, false, fun _ => [], fun _ _ _ => some [], fun _ => [], fun _ _ _ _ => []⟩

/-- Concrete fixture: a ready index that cannot answer the extension query
for the root "b". -/
def cacheFail : FindCache :=
  ⟨true, true,
   fun d => [d],
   fun _ r _ => if r = [98] then none else some [r],
   fun d => [d],
   fun d _ _ _ => [d]⟩

/-- Concrete fixture: a rot13 node. -/
def frot0 : funcShellAndroidRot13 := ⟨fsh0, Value.varref ['x']⟩

/-- Concrete fixture: a find-file-in-dir node. -/
def ffid0 : funcShellAndroidFindFileInDir := ⟨fsh0, Value.varref ['x']⟩

/-- Concrete fixture: an extension-search node. -/
def fext0 : funcShellAndroidFindExtFilesUnder :=
  ⟨fsh0, Value.varref ['c'], Value.varref ['r'], ".java"⟩

/-- Concrete fixture: a java-resource-group node. -/
def fjava0 : funcShellAndroidFindJavaResourceFileGroup := ⟨fsh0, Value.varref ['x']⟩

/-- Concrete fixture: a leaf-search node. -/
def fleaves0 : funcShellAndroidFindleaves :=
  ⟨fsh0, [Value.varref ['p']], Value.varref ['d'], Value.varref ['n'], -1⟩

/-- Concrete fixture: the zero (unconfigured) reference timestamp. -/
def tsZero : GoTime := ⟨0, 0⟩

/-- Concrete fixture: a configured reference timestamp. -/
def tsSet : GoTime := ⟨1700000000, 0⟩

/-- Closed modular form of the rot13 byte transform. -/
theorem rot13Byte_eq (b : Nat) :
    rot13Byte b =
      if 97 ≤ b ∧ b ≤ 122 then 97 + ((b - 97 + 13) % 26)
      else if 65 ≤ b ∧ b ≤ 90 then 65 + ((b - 65 + 13) % 26)
      else b := by
  unfold rot13Byte
  split_ifs <;> omega

/-- The rot13 byte transform is an involution on every byte. -/
theorem rot13Byte_invol (b : Nat) : rot13Byte (rot13Byte b) = b := by
  by_cases h1 : 97 ≤ b ∧ b ≤ 122
  · rw [rot13Byte_eq b, if_pos h1, rot13Byte_eq,
      if_pos (by omega :
        97 ≤ 97 + ((b - 97 + 13) % 26) ∧ 97 + ((b - 97 + 13) % 26) ≤ 122)]
    omega
  · by_cases h2 : 65 ≤ b ∧ b ≤ 90
    · rw [rot13Byte_eq b, if_neg h1, if_pos h2, rot13Byte_eq,
        if_neg (by omega :
          ¬(97 ≤ 65 + ((b - 65 + 13) % 26) ∧ 65 + ((b - 65 + 13) % 26) ≤ 122)),
        if_pos (by omega :
          65 ≤ 65 + ((b - 65 + 13) % 26) ∧ 65 + ((b - 65 + 13) % 26) ≤ 90)]
      omega
    · rw [rot13Byte_eq b, if_neg h1, if_neg h2, rot13Byte_eq, if_neg h1, if_neg h2]

/-- A byte outside both letter ranges is fixed by the rot13 byte transform. -/
theorem rot13Byte_nonletter {b : Nat} (h : ¬ isAsciiLetter b) : rot13Byte b = b := by
  unfold isAsciiLetter at h
  unfold rot13Byte
  split_ifs <;> omega

/-- Positional form of rot13Byte_nonletter over a buffer. -/
theorem rot13_getD_nonletter :
    ∀ (l : Bytes) (i : Nat), ¬ isAsciiLetter (l.getD i 0) →
      (rot13 l).getD i 0 = l.getD i 0
  | [], _, _ => rfl
  | a :: t, 0, h => by
    simpa [rot13, List.getD] using rot13Byte_nonletter (by simpa [List.getD] using h)
  | a :: t, i + 1, h => by
    simpa [rot13, List.getD] using
      rot13_getD_nonletter t i (by simpa [List.getD] using h)

/-- The loop of funcShellAndroidFindExtFilesUnder.Eval returns none as soon
as any root of the list is one the index cannot answer. -/
theorem queryRoots_none_of_mem (cache : FindCache) (chdir : Bytes) (ext : String) :
    ∀ (roots : List Bytes) (r : Bytes), r ∈ roots →
      cache.findExtFilesUnder chdir r ext = none →
      queryRoots cache chdir ext roots = none
  | [], r, hmem, _ => absurd hmem (List.not_mem_nil r)
  | a :: rs, r, hmem, hq => by
    rcases List.mem_cons.mp hmem with he | hm
    · subst he
      simp [queryRoots, hq]
    · have ih := queryRoots_none_of_mem cache chdir ext rs r hm hq
      simp only [queryRoots, ih]
      cases cache.findExtFilesUnder chdir a ext <;> rfl

/-- C1: in every filesystem-query handler (find-file-in-dir,
extension-files-under, java-resource-group, findleaves), if any resolved
directory or root token contains the substring "..", evaluation returns
exactly the result (output and error) of evaluating the original unmodified
command node, independently of the index. -/
theorem claim_C1 (cache : FindCache) (ev : Evaluator) :
    (∀ (f : funcShellAndroidFindFileInDir) (b : Bytes),
      ev.resolve f.dir = Except.ok b → hasDotDot (trimSpaceBytes b) = true →
      f.Eval cache ev = ev.origShell f.funcShell) ∧
    (∀ (f : funcShellAndroidFindExtFilesUnder) (cb rb : Bytes),
      ev.resolve f.chdir = Except.ok cb → ev.resolve f.roots = Except.ok rb →
      (hasDotDot (trimSpaceBytes cb) || (wordScan rb).any hasDotDot) = true →
      f.Eval cache ev = ev.origShell f.funcShell) ∧
    (∀ (f : funcShellAndroidFindJavaResourceFileGroup) (b : Bytes),
      ev.resolve f.dir = Except.ok b → hasDotDot (trimSpaceBytes b) = true →
      f.Eval cache ev = ev.origShell f.funcShell) ∧
    (∀ (f : funcShellAndroidFindleaves) (nb db : Bytes) (pbs : List Bytes),
      ev.resolve f.name = Except.ok nb → ev.resolve f.dirlist = Except.ok db →
      resolveList ev f.prunes = Except.ok pbs →
      (wordScan db).any hasDotDot = true →
      f.Eval cache ev = ev.origShell f.funcShell) := by
  refine ⟨?_, ?_, ?_, ?_⟩
  · intro f b hres hdd
    simp [funcShellAndroidFindFileInDir.Eval, hres, hdd]
  · intro f cb rb hc hr hdd
    simp [funcShellAndroidFindExtFilesUnder.Eval, hc, hr, hdd]
  · intro f b hres hdd
    simp [funcShellAndroidFindJavaResourceFileGroup.Eval, hres, hdd]
  · intro f nb db pbs hn hd hp hdd
    by_cases hl : cache.leavesReady
    · simp [funcShellAndroidFindleaves.Eval, hl, hn, hd, hp, hdd]
    · simp [funcShellAndroidFindleaves.Eval, hl]

/-- C1 witness: with every value resolving to "..", each of the four
handlers returns the original command's result. -/
theorem claim_C1_witness :
    ffid0.Eval cacheReady evDotDot = evDotDot.origShell fsh0 ∧
    fext0.Eval cacheReady evDotDot = evDotDot.origShell fsh0 ∧
    fjava0.Eval cacheReady evDotDot = evDotDot.origShell fsh0 ∧
    fleaves0.Eval cacheReady evDotDot = evDotDot.origShell fsh0 :=
  ⟨(claim_C1 cacheReady evDotDot).1 ffid0 [46, 46] rfl (by decide),
   (claim_C1 cacheReady evDotDot).2.1 fext0 [46, 46] [46, 46] rfl rfl (by decide),
   (claim_C1 cacheReady evDotDot).2.2.1 fjava0 [46, 46] rfl (by decide),
   (claim_C1 cacheReady evDotDot).2.2.2 fleaves0 [46, 46] [46, 46] [[46, 46]]
     rfl rfl rfl (by decide)⟩

/-- C2: in the extension-search handler, if the index's query fails for any
one root then the whole evaluation is exactly the original command's result
(the buffered words of earlier roots are discarded, nothing of the
specialized path reaches the writer); the specialized output is written
only when every root's sub-query succeeds. -/
theorem claim_C2 (f : funcShellAndroidFindExtFilesUnder) (cache : FindCache)
    (ev : Evaluator) (cb rb : Bytes)
    (hc : ev.resolve f.chdir = Except.ok cb) (hr : ev.resolve f.roots = Except.ok rb)
    (hdd : (hasDotDot (trimSpaceBytes cb) || (wordScan rb).any hasDotDot) = false)
    (hready : cache.ready = true) :
    ((∃ r ∈ wordScan rb, cache.findExtFilesUnder (trimSpaceBytes cb) r f.ext = none) →
      f.Eval cache ev = ev.origShell f.funcShell) ∧
    (∀ ws : List Bytes,
      queryRoots cache (trimSpaceBytes cb) f.ext (wordScan rb) = some ws →
      f.Eval cache ev = ⟨ssvJoin ws, none⟩) := by
  constructor
  · rintro ⟨r, hmem, hq⟩
    have hnone := queryRoots_none_of_mem cache (trimSpaceBytes cb) f.ext (wordScan rb) r hmem hq
    simp [funcShellAndroidFindExtFilesUnder.Eval, hc, hr, hdd, hready, hnone]
  · intro ws hws
    simp [funcShellAndroidFindExtFilesUnder.Eval, hc, hr, hdd, hready, hws]

/-- C2 witness: over the roots "a b" with the query failing on "b" the
handler returns the original result, and with every query succeeding it
writes the joined answers. -/
theorem claim_C2_witness :
    fext0.Eval cacheFail evRoots = evRoots.origShell fsh0 ∧
    fext0.Eval cacheReady evRoots = ⟨ssvJoin [[97], [98]], none⟩ :=
  ⟨(claim_C2 fext0 cacheFail evRoots [100] [97, 32, 98] rfl rfl (by decide) rfl).1
     ⟨[98], by decide, by decide⟩,
   (claim_C2 fext0 cacheReady evRoots [100] [97, 32, 98] rfl rfl (by decide) rfl).2
     [[97], [98]] (by decide)⟩

/-- C3: when the external index reports itself not ready (ready for the
three directory handlers, leavesReady for the leaf-search handler), each
handler returns exactly the result of evaluating the original unmodified
command node, so no error is introduced by the fallback itself. -/
theorem claim_C3 (cache : FindCache) (ev : Evaluator) :
    (∀ (f : funcShellAndroidFindFileInDir) (b : Bytes), cache.ready = false →
      ev.resolve f.dir = Except.ok b →
      f.Eval cache ev = ev.origShell f.funcShell) ∧
    (∀ (f : funcShellAndroidFindExtFilesUnder) (cb rb : Bytes), cache.ready = false →
      ev.resolve f.chdir = Except.ok cb → ev.resolve f.roots = Except.ok rb →
      f.Eval cache ev = ev.origShell f.funcShell) ∧
    (∀ (f : funcShellAndroidFindJavaResourceFileGroup) (b : Bytes), cache.ready = false →
      ev.resolve f.dir = Except.ok b →
      f.Eval cache ev = ev.origShell f.funcShell) ∧
    (∀ f : funcShellAndroidFindleaves, cache.leavesReady = false →
      f.Eval cache ev = ev.origShell f.funcShell) := by
  refine ⟨?_, ?_, ?_, ?_⟩
  · intro f b hready hres
    simp [funcShellAndroidFindFileInDir.Eval, hres, hready]
  · intro f cb rb hready hc hr
    simp [funcShellAndroidFindExtFilesUnder.Eval, hc, hr, hready]
  · intro f b hready hres
    simp [funcShellAndroidFindJavaResourceFileGroup.Eval, hres, hready]
  · intro f hl
    simp [funcShellAndroidFindleaves.Eval, hl]

/-- C3 witness: with both readiness flags false and benign resolutions,
each of the four handlers returns the original command's result. -/
theorem claim_C3_witness :
    ffid0.Eval cacheNotReady evSafe = evSafe.origShell fsh0 ∧
    fext0.Eval cacheNotReady evSafe = evSafe.origShell fsh0 ∧
    fjava0.Eval cacheNotReady evSafe = evSafe.origShell fsh0 ∧
    fleaves0.Eval cacheNotReady evSafe = evSafe.origShell fsh0 :=
  ⟨(claim_C3 cacheNotReady evSafe).1 ffid0 [97] rfl rfl,
   (claim_C3 cacheNotReady evSafe).2.1 fext0 [97] [97] rfl rfl rfl,
   (claim_C3 cacheNotReady evSafe).2.2.1 fjava0 [97] rfl rfl,
   (claim_C3 cacheNotReady evSafe).2.2.2 fleaves0 rfl⟩

/-- C4: the find-subdir-assets compactor returns the original node exactly
when its two captured unresolved values differ (as objects), and builds the
specialized find-file-in-dir node around the shared value exactly when they
are equal. -/
theorem claim_C4 (sh : FuncShell) (v0 v1 : Value) :
    (v0 ≠ v1 → compactFindSubdirAssets sh v0 v1 = ShellNode.shell sh) ∧
    (v0 = v1 → compactFindSubdirAssets sh v0 v1 = ShellNode.androidFindFileInDir sh v0) := by
  constructor
  · intro h
    simp [compactFindSubdirAssets, h]
  · intro h
    simp [compactFindSubdirAssets, h]

/-- C4 witness: two distinct captured variable references give the original
node; two equal ones give the specialized node. -/
theorem claim_C4_witness :
    compactFindSubdirAssets fsh0 (Value.varref ['a']) (Value.varref ['b'])
      = ShellNode.shell fsh0 ∧
    compactFindSubdirAssets fsh0 (Value.varref ['a']) (Value.varref ['a'])
      = ShellNode.androidFindFileInDir fsh0 (Value.varref ['a']) :=
  ⟨(claim_C4 fsh0 (Value.varref ['a']) (Value.varref ['b'])).1 (by decide),
   (claim_C4 fsh0 (Value.varref ['a']) (Value.varref ['a'])).2 rfl⟩

/-- C5: the date compactor returns the original node unchanged when the
reference timestamp is unconfigured (zero) or when the capture is not a
literal, and otherwise returns the specialized date node carrying the
pre-translated format. -/
theorem claim_C5 (ts : GoTime) (sh : FuncShell) (v0 : Value) :
    (ts.IsZero = true → compactShellDate ts sh v0 = ShellNode.shell sh) ∧
    ((∀ tf : List Char, v0 ≠ Value.lit tf) →
      compactShellDate ts sh v0 = ShellNode.shell sh) ∧
    (ts.IsZero = false → ∀ tf : List Char, v0 = Value.lit tf →
      compactShellDate ts sh v0 = ShellNode.shellDate sh (translateFormat tf)) := by
  refine ⟨?_, ?_, ?_⟩
  · intro h
    simp [compactShellDate, h]
  · intro h
    cases hz : ts.IsZero
    · cases v0 with
      | lit s => exact absurd rfl (h s)
      | varref n => simp [compactShellDate, hz]
    · simp [compactShellDate, hz]
  · intro hz tf he
    subst he
    simp [compactShellDate, hz]

/-- C5 witness: zero timestamp gives the original node, a non-literal
capture gives the original node, and a configured timestamp with a literal
capture gives the date node with the translated format. -/
theorem claim_C5_witness :
    compactShellDate tsZero fsh0 (Value.lit ['%', 'Y']) = ShellNode.shell fsh0 ∧
    compactShellDate tsSet fsh0 (Value.varref ['x']) = ShellNode.shell fsh0 ∧
    compactShellDate tsSet fsh0 (Value.lit ['%', 'Y'])
      = ShellNode.shellDate fsh0 (translateFormat ['%', 'Y']) :=
  ⟨(claim_C5 tsZero fsh0 (Value.lit ['%', 'Y'])).1 rfl,
   (claim_C5 tsSet fsh0 (Value.varref ['x'])).2.1 (fun _ h => Value.noConfusion h),
   (claim_C5 tsSet fsh0 (Value.lit ['%', 'Y'])).2.2 rfl ['%', 'Y'] rfl⟩

/-- C7: rot13 applied twice is the identity on every byte buffer, and one
application leaves every byte outside the ranges of lowercase and uppercase
ASCII letters unchanged at its position. -/
theorem claim_C7 (buf : Bytes) :
    rot13 (rot13 buf) = buf ∧
    ∀ i : Nat, ¬ isAsciiLetter (buf.getD i 0) →
      (rot13 buf).getD i 0 = buf.getD i 0 := by
  constructor
  · induction buf with
    | nil => rfl
    | cons a t ih =>
      simp only [rot13, List.map_cons] at ih ⊢
      rw [rot13Byte_invol, ih]
  · intro i h
    exact rot13_getD_nonletter buf i h

/-- C7 witness: the buffer "!hi" is restored by a double application, and
its non-letter byte 33 is unchanged by a single application. -/
theorem claim_C7_witness :
    rot13 (rot13 [33, 104, 105]) = [33, 104, 105] ∧
    (rot13 [33, 104, 105]).getD 0 0 = [33, 104, 105].getD 0 0 :=
  ⟨(claim_C7 [33, 104, 105]).1, (claim_C7 [33, 104, 105]).2 0 (by decide)⟩

/-- C8: rot13 shifts a lowercase byte 13 positions forward within a-z with
wraparound and an uppercase byte 13 positions forward within A-Z with
wraparound, and the rot13 handler writes "Uryyb" (bytes 85 114 121 121 98)
with no error whenever its captured variable resolves to "Hello" (bytes
72 101 108 108 111). -/
theorem claim_C8 :
    (∀ b : Nat, 97 ≤ b → b ≤ 122 → rot13 [b] = [97 + ((b - 97 + 13) % 26)]) ∧
    (∀ b : Nat, 65 ≤ b → b ≤ 90 → rot13 [b] = [65 + ((b - 65 + 13) % 26)]) ∧
    (∀ (f : funcShellAndroidRot13) (ev : Evaluator),
      ev.resolve f.v = Except.ok [72, 101, 108, 108, 111] →
      f.Eval ev = ⟨[85, 114, 121, 121, 98], none⟩) := by
  refine ⟨?_, ?_, ?_⟩
  · intro b h1 h2
    simp only [rot13, List.map_cons, List.map_nil, List.cons.injEq, and_true]
    unfold rot13Byte
    split_ifs <;> omega
  · intro b h1 h2
    simp only [rot13, List.map_cons, List.map_nil, List.cons.injEq, and_true]
    unfold rot13Byte
    split_ifs <;> omega
  · intro f ev h
    simp only [funcShellAndroidRot13.Eval, h]
    decide

/-- C8 witness: the concrete node resolving to "Hello" emits "Uryyb", and
byte 104 is shifted by 13 with wraparound arithmetic. -/
theorem claim_C8_witness :
    frot0.Eval evHello = ⟨[85, 114, 121, 121, 98], none⟩ ∧
    rot13 [104] = [97 + ((104 - 97 + 13) % 26)] :=
  ⟨claim_C8.2.2 frot0 evHello rfl, claim_C8.1 104 (by omega) (by omega)⟩

/-- C9: in the leaf-search handler only the directory-list tokens are
checked for "..": whenever the index is ready, resolution succeeds and no
directory token contains "..", the handler writes the index's findleaves
answers and never falls back, with no condition at all on the resolved leaf
name or prune values, which are passed to the index as resolved (trimmed
but otherwise unmodified). -/
theorem claim_C9 (f : funcShellAndroidFindleaves) (cache : FindCache)
    (ev : Evaluator) (nb db : Bytes) (pbs : List Bytes)
    (hl : cache.leavesReady = true)
    (hn : ev.resolve f.name = Except.ok nb)
    (hd : ev.resolve f.dirlist = Except.ok db)
    (hp : resolveList ev f.prunes = Except.ok pbs)
    (hdirs : (wordScan db).any hasDotDot = false) :
    f.Eval cache ev =
      ⟨ssvJoin (concatWords ((wordScan db).map
        (fun d => cache.findleaves d (trimSpaceBytes nb)
          (pbs.map trimSpaceBytes) f.mindepth))), none⟩ := by
  simp [funcShellAndroidFindleaves.Eval, hl, hn, hd, hp, hdirs]

/-- C9 witness: with the leaf name and the prune value both resolving to
".." and the directory list to "a b", the handler still queries the index
with those values and writes its answers. -/
theorem claim_C9_witness :
    fleaves0.Eval cacheReady evLeaf =
      ⟨ssvJoin (concatWords ((wordScan [97, 32, 98]).map
        (fun d => cacheReady.findleaves d (trimSpaceBytes [46, 46])
          ([[46, 46]].map trimSpaceBytes) fleaves0.mindepth))), none⟩ :=
  claim_C9 fleaves0 cacheReady evLeaf [46, 46] [97, 32, 98] [[46, 46]]
    rfl rfl rfl rfl (by decide)

/-- C10: evaluating a compacted date node never returns an error and its
output depends only on the reference timestamp and the pre-translated
format: two evaluations in any two contexts coincide. -/
theorem claim_C10 (goFormat : GoTime → List Char → List Char) (ts : GoTime)
    (f : funcShellDate) (ev1 ev2 : Evaluator) :
    (funcShellDate.Eval goFormat ts f ev1).err = none ∧
    funcShellDate.Eval goFormat ts f ev1 = funcShellDate.Eval goFormat ts f ev2 :=
  ⟨rfl, rfl⟩

/-- replaceAll leaves the empty string empty. -/
theorem replaceAll_nil (old new : List Char) : replaceAll old new [] = [] := by
  simp [replaceAll]

/-- replaceAll with a two-character percent key passes over a head character
that is not the percent sign. -/
theorem replaceAll_cons_ne_pct (k : Char) (rep : List Char) {c : Char}
    (hc : c ≠ '%') (t : List Char) :
    replaceAll ['%', k] rep (c :: t) = c :: replaceAll ['%', k] rep t := by
  have hnp : ¬(['%', k] ≠ [] ∧ ['%', k] <+: (c :: t)) := by
    rintro ⟨-, hpre⟩
    exact hc (List.cons_prefix_cons.mp hpre).1.symm
  rw [replaceAll, dif_neg hnp]

/-- replaceAll on a single character. -/
theorem replaceAll_single (k : Char) (rep : List Char) (c : Char) :
    replaceAll ['%', k] rep [c] = [c] := by
  have hnp : ¬(['%', k] ≠ [] ∧ ['%', k] <+: [c]) := by
    rintro ⟨-, hpre⟩
    have h2 := (List.cons_prefix_cons.mp hpre).2
    simp at h2
  rw [replaceAll, dif_neg hnp, replaceAll_nil]

/-- replaceAll rewrites a directive occurrence at the head and continues
after it. -/
theorem replaceAll_hit (k : Char) (rep : List Char) (t : List Char) :
    replaceAll ['%', k] rep ('%' :: k :: t) = rep ++ replaceAll ['%', k] rep t := by
  have hp : (['%', k] : List Char) <+: ('%' :: k :: t) := ⟨t, rfl⟩
  rw [replaceAll, dif_pos ⟨by simp, hp⟩]
  simp

/-- replaceAll passes over a percent sign that is not followed by its own
directive character. -/
theorem replaceAll_miss (k : Char) (rep : List Char) {c2 : Char} (hk : c2 ≠ k)
    (t : List Char) :
    replaceAll ['%', k] rep ('%' :: c2 :: t) = '%' :: replaceAll ['%', k] rep (c2 :: t) := by
  have hnp : ¬(['%', k] ≠ [] ∧ ['%', k] <+: ('%' :: c2 :: t)) := by
    rintro ⟨-, hpre⟩
    have h2 := (List.cons_prefix_cons.mp hpre).2
    exact hk (List.cons_prefix_cons.mp h2).1.symm
  rw [replaceAll, dif_neg hnp]

/-- replaceAll distributes over a percent-free left factor. -/
theorem replaceAll_append_clean (k : Char) (rep : List Char) :
    ∀ (σ t : List Char), (∀ c ∈ σ, c ≠ '%') →
      replaceAll ['%', k] rep (σ ++ t) = σ ++ replaceAll ['%', k] rep t
  | [], _, _ => rfl
  | d :: σ', t, hσ => by
    rw [List.cons_append,
      replaceAll_cons_ne_pct k rep (hσ d (List.mem_cons_self d σ')) (σ' ++ t),
      replaceAll_append_clean k rep σ' t (fun c hc => hσ c (List.mem_cons_of_mem d hc)),
      List.cons_append]

/-- A none answer of lookupKey survives dropping the head entry. -/
theorem lookupKey_tail_none {kv : Char × List Char} {kvs : List (Char × List Char)}
    {c : Char} (h : lookupKey (kv :: kvs) c = none) : lookupKey kvs c = none := by
  by_cases hc : c = kv.1
  · rw [lookupKey, if_pos hc] at h
    cases h
  · rwa [lookupKey, if_neg hc] at h

/-- The percent sign is never a directive character of a table whose keys
avoid it. -/
theorem lookupKey_pct_none : ∀ kvs : List (Char × List Char),
    (∀ kv ∈ kvs, kv.1 ≠ '%') → lookupKey kvs '%' = none
  | [], _ => rfl
  | kv :: kvs, h => by
    rw [lookupKey, if_neg (fun he => (h kv (List.mem_cons_self kv kvs)) he.symm),
      lookupKey_pct_none kvs (fun kv' h' => h kv' (List.mem_cons_of_mem kv h'))]

/-- Well-formedness of a directive table restricts to its tail. -/
theorem goodKvs_tail {kv : Char × List Char} {kvs : List (Char × List Char)}
    (h : goodKvs (kv :: kvs)) : goodKvs kvs := by
  intro kv' hm
  obtain ⟨h1, h2, h3⟩ := h kv' (List.mem_cons_of_mem kv hm)
  exact ⟨h1, h2, fun c hc => ⟨(h3 c hc).1, lookupKey_tail_none (h3 c hc).2⟩⟩

/-- In a well-formed directive table the percent sign is not a directive. -/
theorem goodKvs_pct_none {kvs : List (Char × List Char)} (h : goodKvs kvs) :
    lookupKey kvs '%' = none :=
  lookupKey_pct_none kvs (fun kv hm => (h kv hm).1)

/-- A character that lookupKey recognizes in a well-formed table is not the
percent sign. -/
theorem lookupKey_some_ne_pct {kvs : List (Char × List Char)} {c : Char}
    {rep : List Char} (hk : goodKvs kvs) (hl : lookupKey kvs c = some rep) :
    c ≠ '%' := by
  intro he
  subst he
  rw [goodKvs_pct_none hk] at hl
  cases hl

/-- Unfolding of foldRef over a head table entry. -/
theorem foldRef_cons (kv : Char × List Char) (kvs : List (Char × List Char))
    (s : List Char) :
    foldRef (kv :: kvs) s = foldRef kvs (replaceAll ['%', kv.1] kv.2 s) := rfl

/-- foldRef leaves the empty string empty. -/
theorem foldRef_nil : ∀ kvs : List (Char × List Char), foldRef kvs [] = []
  | [] => rfl
  | kv :: kvs => by rw [foldRef_cons, replaceAll_nil, foldRef_nil kvs]

/-- foldRef leaves a single character unchanged. -/
theorem foldRef_single : ∀ (kvs : List (Char × List Char)) (c : Char),
    foldRef kvs [c] = [c]
  | [], _ => rfl
  | kv :: kvs, c => by rw [foldRef_cons, replaceAll_single, foldRef_single kvs c]

/-- foldRef passes over a head character that is not the percent sign. -/
theorem foldRef_cons_ne_pct : ∀ (kvs : List (Char × List Char)) {c : Char},
    c ≠ '%' → ∀ t : List Char, foldRef kvs (c :: t) = c :: foldRef kvs t
  | [], _, _, _ => rfl
  | kv :: kvs, c, hc, t => by
    rw [foldRef_cons, replaceAll_cons_ne_pct kv.1 kv.2 hc t,
      foldRef_cons_ne_pct kvs hc (replaceAll ['%', kv.1] kv.2 t), foldRef_cons]

/-- foldRef distributes over a percent-free left factor. -/
theorem foldRef_append_clean (kvs : List (Char × List Char)) :
    ∀ (σ t : List Char), (∀ c ∈ σ, c ≠ '%') →
      foldRef kvs (σ ++ t) = σ ++ foldRef kvs t
  | [], _, _ => rfl
  | d :: σ', t, hσ => by
    rw [List.cons_append,
      foldRef_cons_ne_pct kvs (hσ d (List.mem_cons_self d σ')) (σ' ++ t),
      foldRef_append_clean kvs σ' t (fun c hc => hσ c (List.mem_cons_of_mem d hc)),
      List.cons_append]

/-- foldRef of a well-formed table rewrites a recognized directive at the
head of the string to its replacement and proceeds after it: exactly one
entry fires on it and the replacement is inert for all later entries. -/
theorem foldRef_hit : ∀ (kvs : List (Char × List Char)), goodKvs kvs →
    ∀ {c2 : Char} {rep : List Char} (t : List Char),
      lookupKey kvs c2 = some rep →
      foldRef kvs ('%' :: c2 :: t) = rep ++ foldRef kvs t
  | [], _, _, _, _, hl => by cases hl
  | kv :: kvs, hk, c2, rep, t, hl => by
    by_cases hc : c2 = kv.1
    · have hl' : kv.2 = rep := by
        rw [lookupKey, if_pos hc] at hl
        exact Option.some.inj hl
      have hclean : ∀ c ∈ kv.2, c ≠ '%' :=
        fun c hcm => ((hk kv (List.mem_cons_self kv kvs)).2.2 c hcm).1
      rw [foldRef_cons, hc, replaceAll_hit kv.1 kv.2 t,
        foldRef_append_clean kvs kv.2 (replaceAll ['%', kv.1] kv.2 t) hclean,
        foldRef_cons, hl']
    · have hl' : lookupKey kvs c2 = some rep := by
        rwa [lookupKey, if_neg hc] at hl
      have hc2 : c2 ≠ '%' := lookupKey_some_ne_pct (goodKvs_tail hk) hl'
      rw [foldRef_cons, replaceAll_miss kv.1 kv.2 hc t,
        replaceAll_cons_ne_pct kv.1 kv.2 hc2 t,
        foldRef_hit kvs (goodKvs_tail hk) (replaceAll ['%', kv.1] kv.2 t) hl',
        foldRef_cons]

/-- After one replaceAll pass of a well-formed table entry, a string whose
head the table does not recognize is rewritten to a nonempty string whose
head the table still does not recognize. -/
theorem replaceAll_head_none (kvs : List (Char × List Char)) (k : Char)
    (σ : List Char) (hσnil : σ ≠ []) (hσ : ∀ c ∈ σ, lookupKey kvs c = none)
    (hpct : lookupKey kvs '%' = none) (c2 : Char) (t : List Char)
    (hc2 : lookupKey kvs c2 = none) :
    ∃ x xs, replaceAll ['%', k] σ (c2 :: t) = x :: xs ∧ lookupKey kvs x = none := by
  by_cases hcp : c2 = '%'
  · subst hcp
    cases t with
    | nil => exact ⟨'%', [], replaceAll_single k σ '%', hpct⟩
    | cons u us =>
      by_cases hu : u = k
      · cases σ with
        | nil => exact absurd rfl hσnil
        | cons s0 ss =>
          refine ⟨s0, ss ++ replaceAll ['%', k] (s0 :: ss) us, ?_,
            hσ s0 (List.mem_cons_self s0 ss)⟩
          rw [hu, replaceAll_hit k (s0 :: ss) us]
          rfl
      · exact ⟨'%', replaceAll ['%', k] σ (u :: us), replaceAll_miss k σ hu us, hpct⟩
  · exact ⟨c2, replaceAll ['%', k] σ t, replaceAll_cons_ne_pct k σ hcp t, hc2⟩

/-- foldRef of a well-formed table copies a percent sign that is not
followed by a recognized directive character. -/
theorem foldRef_miss : ∀ (kvs : List (Char × List Char)), goodKvs kvs →
    ∀ (c2 : Char) (t : List Char), lookupKey kvs c2 = none →
      foldRef kvs ('%' :: c2 :: t) = '%' :: foldRef kvs (c2 :: t)
  | [], _, _, _, _ => rfl
  | kv :: kvs, hk, c2, t, hl => by
    have hck : c2 ≠ kv.1 := by
      intro he
      rw [lookupKey, if_pos he] at hl
      cases hl
    have hl' : lookupKey kvs c2 = none := lookupKey_tail_none hl
    have hhead := hk kv (List.mem_cons_self kv kvs)
    have hσ : ∀ c ∈ kv.2, lookupKey kvs c = none :=
      fun c hc => lookupKey_tail_none (hhead.2.2 c hc).2
    have hpct : lookupKey kvs '%' = none := goodKvs_pct_none (goodKvs_tail hk)
    obtain ⟨x, xs, hX, hxnone⟩ :=
      replaceAll_head_none kvs kv.1 kv.2 hhead.2.1 hσ hpct c2 t hl'
    rw [foldRef_cons, replaceAll_miss kv.1 kv.2 hck t, hX,
      foldRef_miss kvs (goodKvs_tail hk) x xs hxnone, ← hX, foldRef_cons]

/-- The sequential replacement fold of a well-formed directive table agrees
with the one-pass left-to-right scanner on every string.  Since goodKvs and
lookupKey answers are stable under permuting a table with distinct keys,
this also makes the unspecified Go map iteration order immaterial. -/
theorem foldRef_eq_dateScan (kvs : List (Char × List Char)) (hk : goodKvs kvs) :
    ∀ s : List Char, foldRef kvs s = dateScan kvs s
  | [] => by rw [foldRef_nil kvs]; rfl
  | [c] => by rw [foldRef_single kvs c]; rfl
  | c1 :: c2 :: rest => by
    by_cases h1 : c1 = '%'
    · subst h1
      cases hl : lookupKey kvs c2 with
      | some rep =>
        rw [foldRef_hit kvs hk rest hl, foldRef_eq_dateScan kvs hk rest]
        simp [dateScan, hl]
      | none =>
        rw [foldRef_miss kvs hk c2 rest hl, foldRef_eq_dateScan kvs hk (c2 :: rest)]
        simp [dateScan, hl]
    · rw [foldRef_cons_ne_pct kvs h1 (c2 :: rest), foldRef_eq_dateScan kvs hk (c2 :: rest)]
      simp [dateScan, h1]

/-- C6: the pre-translation applied once at compaction time rewrites the
captured format string exactly like the left-to-right scanner that replaces
every occurrence of each recognized two-character directive (%Y %m %d %H %M
%S %b %k) by its native token (2006 01 02 15 04 05 Jan 15) and copies every
character sequence outside that recognized set character-for-character
unchanged. -/
theorem claim_C6 (s : List Char) : translateFormat s = dateScanSpec s :=
  foldRef_eq_dateScan shellDateFormatRef (by decide) s

end KatiShellutil
